import Mathlib

/-!
Verification of the step-execution and output-binding core of
`pkg/runtime/runtime.go` (the `PorterRuntime` bundle execution engine).

The Go code is shallowly embedded as pure Lean functions.  Filesystem and
collaborator effects (mixin invocation, manifest resolution, file reads and
writes, copies) are represented by explicit oracles carried in an environment
record, and the evolving runtime state (bundle output store, manifest output
bookkeeping, error log) is threaded explicitly.  Traces of observable events
record which collaborators were invoked, so that ordering claims can be
stated.
-/

set_option autoImplicit false

namespace Porter

/-- Bundle-level output descriptor, embedding `manifest.OutputDefinition` as
used by `runtime.go`: a name, an optional filesystem path (the Go zero value
`""` means "no path", matching the `outputDef.Path == ""` check at line 193),
the `applyTo` action list (empty means "all actions") and a sensitivity
flag. -/
structure OutputDefinition where
  Name : String
  Path : String
  ApplyTo : List String
  Sensitive : Bool
deriving Repr, DecidableEq

/-- Embedding of `shouldApplyOutput` (runtime.go lines 210-221): an output is
in scope when its `ApplyTo` list is empty, or when some entry of the list
equals the current action name. -/
def shouldApplyOutput (action : String) (output : OutputDefinition) : Bool :=
  if output.ApplyTo.isEmpty then
    true
  else
    output.ApplyTo.any (fun applyTo => action == applyTo)

/-- The Bundle Output Store directory contents: one entry per file, keyed by
declared output name, value = file contents. -/
abbrev Store := List (String × String)

/-- Embedding of `FileSystem.WriteFile` into an association-list store:
overwrite the entry for `k` if present, append it otherwise. -/
def storeWrite (store : Store) (k v : String) : Store :=
  match store with
  | [] => [(k, v)]
  | (k', v') :: rest =>
    if k' = k then (k, v) :: rest else (k', v') :: storeWrite rest k v

/-- Embedding of `github.com/hashicorp/go-multierror`: the list of collected
error messages; a `nil` multierror pointer is the empty list. -/
abbrev MultiError := List String

/-- Embedding of `multierror.Append`: returns a new aggregate with the message
added (the receiver is not mutated). -/
def multierrorAppend (m : MultiError) (e : String) : MultiError :=
  m ++ [e]

/-- Embedding of `(*multierror.Error).ErrorOrNil`: `nil` for an empty (or nil)
aggregate, the aggregate itself otherwise. -/
def errorOrNil (m : MultiError) : Option MultiError :=
  if m.isEmpty then none else some m

/-- Oracle inputs for `getImageMappingFiles` (runtime.go lines 252-274): the
outcome of reading `/cnab/bundle.json`, of `loader.LoadData` on it, of the
`Stat` probe for `/cnab/app/relocation-mapping.json`, and of reading and
unmarshalling that file when present.  The bundle value and relocation map
are opaque payloads. -/
structure ImageFilesEnv where
  bundleReadErr : Bool
  bundleParseErr : Bool
  bundleVal : String
  reloPresent : Bool
  reloReadErr : Bool
  reloParseErr : Bool
  reloMapVal : List (String × String)
deriving Repr, DecidableEq

/-- Embedding of `getImageMappingFiles` (runtime.go lines 252-274): read and
parse the runtime bundle.json (each failure fatal, with its wrap message);
then, only if the relocation-mapping file is present per `Stat`, read and
unmarshal it (each failure fatal); a missing relocation file yields the nil
(empty) relocation map. -/
def getImageMappingFiles (env : ImageFilesEnv) :
    Except String (String × List (String × String)) :=
  if env.bundleReadErr then
    .error "couldn't read runtime bundle.json"
  else if env.bundleParseErr then
    .error "couldn't load runtime bundle.json"
  else if env.reloPresent then
    if env.reloReadErr then
      .error "couldn't read relocation file"
    else if env.reloParseErr then
      .error "couldn't load relocation file"
    else
      .ok (env.bundleVal, env.reloMapVal)
  else
    .ok (env.bundleVal, [])

/-- Discriminator for `Except` success, used to state fatality claims. -/
def exceptIsOk {ε α : Type} : Except ε α → Bool
  | .ok _ => true
  | .error _ => false

/-- Environment record for the runtime: the current action and declared
bundle outputs (accessors of the runtime manifest), failure oracles for each
external stage of `Execute`, and filesystem oracles for the output store
(`writeErr`, keyed by declared output name) and for `CopyFile` (`copyErr` and
`copyContents`, keyed by the source path). -/
structure Env where
  action : String
  defs : List OutputDefinition
  validateErr : Bool
  prepareErr : Bool
  imageEnv : ImageFilesEnv
  resolveImagesErr : Bool
  mkdirMixinDirErr : Bool
  mkdirOutputsErr : Bool
  writeErr : String → Bool
  copyErr : String → Bool
  copyContents : String → String

/-- Accumulator of the `applyUnboundBundleOutputs` loop: the `bigErr`
multierror variable, the output store, plus two observational traces — the
copies that succeeded (declared name, contents) and the source paths whose
`CopyFile` failed. -/
structure UAcc where
  bigErr : MultiError
  store : Store
  copies : List (String × String)
  failed : List String

/-- Result of `applyUnboundBundleOutputs`: the returned error (a multierror
aggregate or nil), the resulting store, and the two observational traces. -/
structure UnboundResult where
  err : Option MultiError
  store : Store
  copies : List (String × String)
  failed : List String

/-- One iteration of the loop in `applyUnboundBundleOutputs` (runtime.go lines
186-205) over a declared output definition.  `produced` is the
`RuntimeManifest.GetOutputs()` bookkeeping; the Go map read
`outputs[outputDef.Name]` yields `""` for an absent key, so the "already set"
test is `lookup ≠ ""`.  A definition with no path, or out of `applyTo` scope,
is skipped.  On a `CopyFile` failure the source faithfully executes line 201,
`err = multierror.Append(bigErr, ...)`: the appended aggregate is stored in
the local `err` variable and `bigErr` itself is left unchanged. -/
def unboundStep (env : Env) (produced : List (String × String))
    (acc : UAcc) (d : OutputDefinition) : UAcc :=
  if ((List.lookup d.Name produced).getD "") ≠ "" then
    acc
  else if d.Path = "" then
    acc
  else if shouldApplyOutput env.action d then
    if env.copyErr d.Path then
      let _err := multierrorAppend acc.bigErr
        ("unable to copy output file from " ++ d.Path)
      { acc with failed := acc.failed ++ [d.Path] }
    else
      { acc with
          store := storeWrite acc.store d.Name (env.copyContents d.Path),
          copies := acc.copies ++ [(d.Name, env.copyContents d.Path)] }
  else
    acc

/-- The full loop of `applyUnboundBundleOutputs` over the declared output
definitions. -/
def unboundLoop (env : Env) (produced : List (String × String))
    (ds : List OutputDefinition) (acc : UAcc) : UAcc :=
  ds.foldl (unboundStep env produced) acc

/-- Embedding of `applyUnboundBundleOutputs` (runtime.go lines 174-208):
ensure the store directory exists (failure returned directly), then process
every declared output definition with `bigErr` initially nil, and return
`bigErr.ErrorOrNil()`. -/
def applyUnboundBundleOutputs (env : Env) (produced : List (String × String))
    (store : Store) : UnboundResult :=
  if env.mkdirOutputsErr then
    ⟨some ["unable to ensure CNAB outputs directory exists"], store, [], []⟩
  else
    let a := unboundLoop env produced env.defs ⟨[], store, [], []⟩
    ⟨errorOrNil a.bigErr, a.store, a.copies, a.failed⟩

/-- One entry of the Output Channel directory (`context.MixinOutputsDir`) as
seen by `readMixinOutputs`: its name, whether it is a subdirectory, the file
contents, and oracles for whether `ReadFile` / `Remove` on it fail. -/
structure DirEntry where
  name : String
  isDir : Bool
  contents : String
  readErr : Bool
  removeErr : Bool
deriving Repr, DecidableEq

/-- The loop of `readMixinOutputs` (runtime.go lines 231-247), processing the
directory listing in order.  `acc` is the outputs map built so far, `done` the
directory entries that remain on disk so far (subdirectories are skipped and
never removed).  A `ReadFile` or `Remove` failure returns the error at once,
leaving the current and remaining entries on disk; on success the file's
(name, contents) pair is recorded and the file removed. -/
def readMixinOutputsAux (acc : List (String × String)) (done : List DirEntry) :
    List DirEntry → Except String (List (String × String)) × List DirEntry
  | [] => (.ok acc, done)
  | e :: rest =>
    if e.isDir then
      readMixinOutputsAux acc (done ++ [e]) rest
    else if e.readErr then
      (.error ("could not read output file " ++ e.name), done ++ e :: rest)
    else if e.removeErr then
      (.error ("could not remove output file " ++ e.name), done ++ e :: rest)
    else
      readMixinOutputsAux (acc ++ [(e.name, e.contents)]) done rest

/-- Embedding of `readMixinOutputs` (runtime.go lines 223-250): list the
Output Channel directory (`readDirErr` models a `ReadDir` failure, which
leaves the directory untouched), then read-and-delete every regular file.
Returns the outputs map (or the first error) together with the directory
contents left on disk afterwards. -/
def readMixinOutputsGo (readDirErr : Bool) (entries : List DirEntry) :
    Except String (List (String × String)) × List DirEntry :=
  if readDirErr then
    (.error "could not list mixin outputs directory", entries)
  else
    readMixinOutputsAux [] [] entries

/-- Embedding of `RuntimeManifest.Outputs[outputKey]` (a Go map lookup keyed
by declared output name): the first declared definition with that name, if
any. -/
def lookupDef (defs : List OutputDefinition) (k : String) :
    Option OutputDefinition :=
  defs.find? (fun d => d.Name == k)

/-- Result of `applyStepOutputsToBundle`: the Go error value, the resulting
store, and the observational list of (name, value) files actually written. -/
structure BindResult where
  res : Except String Unit
  store : Store
  writes : List (String × String)

/-- The loop of `applyStepOutputsToBundle` (runtime.go lines 153-167) over the
produced (name, value) pairs: a pair with no matching declared definition is
skipped; an out-of-scope match is skipped; otherwise the value is written to
`<BundleOutputsDir>/<name>` (the `writeErr` oracle is keyed by that declared
name), and a write failure is returned at once, keeping earlier writes. -/
def bindLoop (env : Env) :
    List (String × String) → Store → List (String × String) → BindResult
  | [], store, writes => ⟨.ok (), store, writes⟩
  | (k, v) :: rest, store, writes =>
    match lookupDef env.defs k with
    | none => bindLoop env rest store writes
    | some d =>
      if shouldApplyOutput env.action d then
        if env.writeErr d.Name then
          ⟨.error ("unable to write output file " ++ d.Name), store, writes⟩
        else
          bindLoop env rest (storeWrite store d.Name v) (writes ++ [(d.Name, v)])
      else
        bindLoop env rest store writes

/-- Embedding of `applyStepOutputsToBundle` (runtime.go lines 147-169):
ensure the store directory exists (`createOutputsDir`), then process each
produced pair. -/
def applyStepOutputsToBundle (env : Env) (outputs : List (String × String))
    (store : Store) : BindResult :=
  if env.mkdirOutputsErr then
    ⟨.error "unable to ensure CNAB outputs directory exists", store, []⟩
  else
    bindLoop env outputs store []

/-- Per-step oracle record: whether the step pointer is nil (runtime.go line
92), whether `ResolveStep` fails, the bytes and error produced by
`yaml.Marshal` on the step's ActionInput envelope, whether `mixins.Run`
fails, the outcome of listing the Output Channel directory after the mixin
ran, the files the mixin left there, and whether
`RuntimeManifest.ApplyStepOutputs` fails. -/
structure StepSpec where
  isNil : Bool
  resolveErr : Bool
  marshalOut : String
  marshalErr : Bool
  mixinErr : Bool
  readDirErr : Bool
  channelFiles : List DirEntry
  applyErr : Bool

/-- Embedding of `yaml.Marshal(input)` at runtime.go line 112: the serialized
envelope bytes together with the serialization error flag. -/
def yamlMarshal (s : StepSpec) : String × Bool :=
  (s.marshalOut, s.marshalErr)

/-- Mutable runtime state threaded through execution: the Bundle Output Store
directory, the manifest's step-output bookkeeping (what
`RuntimeManifest.GetOutputs()` returns), and the messages printed to the
error stream `r.Err`. -/
structure RState where
  store : Store
  manifestOutputs : List (String × String)
  errLog : List String
deriving Repr, DecidableEq

/-- Modelled from the spec: `RuntimeManifest.ApplyStepOutputs` (the manifest
collaborator, whose source is outside `pkg/runtime/runtime.go`) records each
produced (name, value) pair in the manifest's step-output bookkeeping, later
values overwriting earlier ones for the same name. -/
def applyStepOutputsBook (book : List (String × String))
    (outputs : List (String × String)) : List (String × String) :=
  outputs.foldl (fun b kv => storeWrite b kv.1 kv.2) book

/-- Observable events of one execution: per-step collaborator invocations
(tagged with the zero-based step index) and the single post-loop invocation
of the unbound-output resolver. -/
inductive Event where
  | resolveStep (i : Nat)
  | mixinRun (i : Nat) (input : String)
  | readOutputs (i : Nat)
  | applyOutputs (i : Nat)
  | bindOutputs (i : Nat)
  | resolveUnbound
deriving Repr, DecidableEq

/-- The step index an event belongs to, `none` for the resolver event. -/
def Event.idx : Event → Option Nat
  | .resolveStep i => some i
  | .mixinRun i _ => some i
  | .readOutputs i => some i
  | .applyOutputs i => some i
  | .bindOutputs i => some i
  | .resolveUnbound => none

/-- Embedding of `executeStep` (runtime.go lines 91-135) for the step at
index `i`: nil steps are skipped; `ResolveStep` failure aborts; the envelope
is serialized with the `yaml.Marshal` error discarded (`inputBytes, _ :=`)
and the mixin is invoked with the serialized input; a mixin failure aborts;
the Output Channel is then read (a failure aborts before any bookkeeping);
`ApplyStepOutputs` updates the manifest bookkeeping; finally the produced
outputs are bound to the bundle store.  Returns the Go error value, the new
state, and the trace of collaborator invocations. -/
def executeStep (env : Env) (i : Nat) (s : StepSpec) (st : RState) :
    Option String × RState × List Event :=
  if s.isNil then
    (none, st, [])
  else if s.resolveErr then
    (some "unable to resolve step", st, [.resolveStep i])
  else
    let inputBytes := (yamlMarshal s).1
    if s.mixinErr then
      (some "mixin execution failed", st, [.resolveStep i, .mixinRun i inputBytes])
    else
      match (readMixinOutputsGo s.readDirErr s.channelFiles).1 with
      | .error e =>
        (some ("could not read step outputs: " ++ e), st,
          [.resolveStep i, .mixinRun i inputBytes, .readOutputs i])
      | .ok outputs =>
        if s.applyErr then
          (some "apply step outputs failed", st,
            [.resolveStep i, .mixinRun i inputBytes, .readOutputs i,
              .applyOutputs i])
        else
          let b := applyStepOutputsToBundle env outputs st.store
          ((match b.res with | .error e => some e | .ok _ => none),
            { store := b.store,
              manifestOutputs := applyStepOutputsBook st.manifestOutputs outputs,
              errLog := st.errLog },
            [.resolveStep i, .mixinRun i inputBytes, .readOutputs i,
              .applyOutputs i, .bindOutputs i])

/-- The error outcome of executing one step, which depends only on the
environment and the step's oracles (not on the threaded state). -/
def stepErr (env : Env) (s : StepSpec) : Option String :=
  (executeStep env 0 s ⟨[], [], []⟩).1

/-- The step loop of `Execute` (runtime.go lines 71-77): run the steps in
order from index `i`, stopping at the first error. -/
def runSteps (env : Env) (i : Nat) (steps : List StepSpec) (st : RState) :
    Option String × RState × List Event :=
  match steps with
  | [] => (none, st, [])
  | s :: rest =>
    match executeStep env i s st with
    | (some e, st', ev) => (some e, st', ev)
    | (none, st', ev) =>
      let r := runSteps env (i + 1) rest st'
      (r.1, r.2.1, ev ++ r.2.2)

/-- The first step-execution error among the given steps, if any. -/
def firstStepErr (env : Env) : List StepSpec → Option String
  | [] => none
  | s :: rest =>
    match stepErr env s with
    | some e => some e
    | none => firstStepErr env rest

/-- Rendering of a multierror aggregate into the single line printed to the
error stream (runtime.go line 82). -/
def renderMulti (m : MultiError) : String :=
  String.intercalate "; " m

/-- Result of `Execute`: the returned error value, the final state, and the
event trace. -/
structure ExecResult where
  result : Option String
  state : RState
  trace : List Event

/-- Embedding of `Execute` (runtime.go lines 35-89): validate, prepare, load
the image mapping files, resolve images, create the Output Channel directory
(each failure fatal); then run the step loop, remembering its first error;
then always call `applyUnboundBundleOutputs`, passing the manifest's
step-output bookkeeping, printing a non-nil resolver error to the error
stream; finally return the step-loop outcome. -/
def Execute (env : Env) (steps : List StepSpec) (st : RState) : ExecResult :=
  if env.validateErr then
    ⟨some "manifest validation failed", st, []⟩
  else if env.prepareErr then
    ⟨some "manifest preparation failed", st, []⟩
  else
    match getImageMappingFiles env.imageEnv with
    | .error e => ⟨some e, st, []⟩
    | .ok _ =>
      if env.resolveImagesErr then
        ⟨some "unable to resolve bundle images", st, []⟩
      else if env.mkdirMixinDirErr then
        ⟨some "could not create outputs directory", st, []⟩
      else
        let r := runSteps env 0 steps st
        let u := applyUnboundBundleOutputs env r.2.1.manifestOutputs r.2.1.store
        let errLog' :=
          match u.err with
          | some es => r.2.1.errLog ++ [renderMulti es]
          | none => r.2.1.errLog
        ⟨r.1, ⟨u.store, r.2.1.manifestOutputs, errLog'⟩,
          r.2.2 ++ [Event.resolveUnbound]⟩

/-- The pre-step stages of `Execute` (runtime.go lines 42-69) all succeed:
validation, preparation, image mapping files, image resolution and Output
Channel directory creation. -/
def preOk (env : Env) : Prop :=
  env.validateErr = false ∧ env.prepareErr = false ∧
    exceptIsOk (getImageMappingFiles env.imageEnv) = true ∧
    env.resolveImagesErr = false ∧ env.mkdirMixinDirErr = false

instance (env : Env) : Decidable (preOk env) := by
  unfold preOk
  infer_instance

/-- Image-file environment with every read succeeding and the relocation
mapping file absent. -/
def baseImageEnv : ImageFilesEnv :=
  ⟨false, false, "bundle", false, false, false, []⟩

/-- Baseline environment for concrete runs: action `install`, no declared
outputs, every external stage and filesystem operation succeeding. -/
def baseEnv : Env where
  action := "install"
  defs := []
  validateErr := false
  prepareErr := false
  imageEnv := baseImageEnv
  resolveImagesErr := false
  mkdirMixinDirErr := false
  mkdirOutputsErr := false
  writeErr := fun _ => false
  copyErr := fun _ => false
  copyContents := fun _ => ""

/-- Empty initial runtime state. -/
def st0 : RState := ⟨[], [], []⟩

/-- A step whose every stage succeeds and whose mixin writes nothing to the
Output Channel. -/
def okStep : StepSpec where
  isNil := false
  resolveErr := false
  marshalOut := "envelope"
  marshalErr := false
  mixinErr := false
  readDirErr := false
  channelFiles := []
  applyErr := false

/-- A step whose manifest resolution fails. -/
def badStep : StepSpec := { okStep with resolveErr := true }

/-- Environment with two declared path-backed outputs, neither produced by a
step, and a `CopyFile` that fails on every path. -/
def envC1 : Env :=
  { baseEnv with
      defs := [⟨"o1", "/p1", [], false⟩, ⟨"o2", "/p2", [], false⟩],
      copyErr := fun _ => true }

/-- A declared output named `o` backed by the path `/f`, unrestricted scope. -/
def defO : OutputDefinition := ⟨"o", "/f", [], false⟩

/-- Environment declaring only `defO`, whose backing file reads as `X`. -/
def envC5 : Env :=
  { baseEnv with defs := [defO], copyContents := fun _ => "X" }

/-- Environment where the Bundle Output Store directory cannot be created,
so the unbound-output resolver returns a non-nil error. -/
def envW3 : Env := { baseEnv with mkdirOutputsErr := true }

/-- Environment declaring a step-produced output scoped to the `install`
action only, with the current action being `install`. -/
def envW4 : Env :=
  { baseEnv with defs := [⟨"o", "", ["install"], false⟩] }

/-- The same declarations as `envW4` with the current action `upgrade`. -/
def envW4up : Env := { envW4 with action := "upgrade" }

/-- A step whose mixin leaves one unreadable file in the Output Channel. -/
def stepW6 : StepSpec :=
  { okStep with
      channelFiles := [⟨"a", false, "va", false, false⟩, ⟨"bad", false, "vb", true, false⟩] }

/-- A step whose mixin leaves two readable files and one subdirectory in the
Output Channel. -/
def stepW9 : StepSpec :=
  { okStep with
      channelFiles := [⟨"a", false, "va", false, false⟩, ⟨"sub", true, "", false, false⟩,
        ⟨"b", false, "vb", false, false⟩] }

/-- A step whose envelope serialization fails, producing empty input bytes. -/
def stepW10 : StepSpec := { okStep with marshalOut := "", marshalErr := true }

/-- The exact condition under which the loop of `applyUnboundBundleOutputs`
copies a declared definition's backing file: the bookkeeping holds no
non-empty value under its name, it has a path, it is in `applyTo` scope, and
the copy itself succeeds. -/
def unboundCopyCond (env : Env) (produced : List (String × String))
    (d : OutputDefinition) : Prop :=
  ((List.lookup d.Name produced).getD "") = "" ∧ d.Path ≠ "" ∧
    shouldApplyOutput env.action d = true ∧ env.copyErr d.Path = false

instance (env : Env) (produced : List (String × String)) (d : OutputDefinition) :
    Decidable (unboundCopyCond env produced d) := by
  unfold unboundCopyCond
  infer_instance

/-- C7: loading image-mapping inputs succeeds exactly when the bundle
metadata reads and parses and, should the relocation-mapping file be present,
that file also reads and parses; and with the relocation file absent and the
bundle metadata readable, the result is the bundle with the empty relocation
map — absence of the relocation file is never an error. -/
theorem getImageMappingFiles_optional_relocation (env : ImageFilesEnv) :
    exceptIsOk (getImageMappingFiles env) =
      (!env.bundleReadErr && !env.bundleParseErr &&
        (!env.reloPresent || (!env.reloReadErr && !env.reloParseErr))) ∧
    getImageMappingFiles
        { env with reloPresent := false, bundleReadErr := false, bundleParseErr := false } =
      .ok (env.bundleVal, []) := by
  rcases env with ⟨br, bp, bv, rp, rr, rpe, rm⟩
  cases br <;> cases bp <;> cases rp <;> cases rr <;> cases rpe <;>
    simp [getImageMappingFiles, exceptIsOk]

/-- C1 (code bug): with two declared path-backed outputs, neither produced by
any step, and `CopyFile` failing on both source paths, the Unbound Output
Resolver attempts and fails both copies yet returns a nil error: line 201 of
runtime.go assigns the appended aggregate to `err` instead of `bigErr`, so
`bigErr.ErrorOrNil()` is always nil and no copy failure is ever reported. -/
theorem applyUnbound_swallows_copy_failures :
    (applyUnboundBundleOutputs envC1 [] []).failed = ["/p1", "/p2"] ∧
    (applyUnboundBundleOutputs envC1 [] []).err = none :=
  ⟨rfl, rfl⟩

/-- On a successful pass, the Output Channel read leaves exactly the
subdirectories on disk and returns the accumulated map extended with every
regular file's (name, contents) pair, in listing order. -/
theorem readMixinOutputsAux_ok (entries : List DirEntry) :
    ∀ (acc m : List (String × String)) (done : List DirEntry),
      (readMixinOutputsAux acc done entries).1 = .ok m →
      (readMixinOutputsAux acc done entries).2 =
        done ++ entries.filter (fun e => e.isDir) ∧
      m = acc ++ (entries.filter (fun e => !e.isDir)).map (fun e => (e.name, e.contents)) := by
  induction entries with
  | nil =>
    intro acc m done h
    simp only [readMixinOutputsAux, Except.ok.injEq] at h
    simp [readMixinOutputsAux, h]
  | cons e rest ih =>
    intro acc m done h
    by_cases hdir : e.isDir = true
    · rw [readMixinOutputsAux, if_pos hdir] at h ⊢
      obtain ⟨h1, h2⟩ := ih acc m (done ++ [e]) h
      refine ⟨?_, ?_⟩
      · rw [h1]; simp [hdir]
      · rw [h2]; simp [hdir]
    · rw [readMixinOutputsAux, if_neg hdir] at h ⊢
      by_cases hr : e.readErr = true
      · rw [if_pos hr] at h; exact absurd h (by simp)
      · rw [if_neg hr] at h ⊢
        by_cases hm : e.removeErr = true
        · rw [if_pos hm] at h; exact absurd h (by simp)
        · rw [if_neg hm] at h ⊢
          obtain ⟨h1, h2⟩ := ih (acc ++ [(e.name, e.contents)]) m done h
          refine ⟨?_, ?_⟩
          · rw [h1]; simp [hdir]
          · rw [h2]; simp [hdir]

/-- If some regular file in the Output Channel listing is unreadable or
undeletable, the batch read returns an error. -/
theorem readMixinOutputsAux_err (entries : List DirEntry) :
    ∀ (acc : List (String × String)) (done : List DirEntry),
      (∃ e ∈ entries, e.isDir = false ∧ (e.readErr = true ∨ e.removeErr = true)) →
      ∃ msg, (readMixinOutputsAux acc done entries).1 = .error msg := by
  induction entries with
  | nil =>
    rintro acc done ⟨e, he, -⟩
    exact absurd he (List.not_mem_nil e)
  | cons a rest ih =>
    rintro acc done ⟨e, he, hdir, hbad⟩
    by_cases ha : a.isDir = true
    · have hrest : e ∈ rest := by
        rcases List.mem_cons.1 he with rfl | h
        · rw [ha] at hdir; exact absurd hdir (by simp)
        · exact h
      rw [readMixinOutputsAux, if_pos ha]
      exact ih acc (done ++ [a]) ⟨e, hrest, hdir, hbad⟩
    · rw [readMixinOutputsAux, if_neg ha]
      by_cases hr : a.readErr = true
      · rw [if_pos hr]; exact ⟨_, rfl⟩
      · rw [if_neg hr]
        by_cases hm : a.removeErr = true
        · rw [if_pos hm]; exact ⟨_, rfl⟩
        · rw [if_neg hm]
          have hrest : e ∈ rest := by
            rcases List.mem_cons.1 he with rfl | h
            · rcases hbad with hb | hb
              · exact absurd hb hr
              · exact absurd hb hm
            · exact h
          exact ih _ done ⟨e, hrest, hdir, hbad⟩

/-- C9: when a (non-nil) step completes successfully, the Output Channel
directory retains only subdirectories — zero regular files — and every
regular file that was present was read into the returned outputs map (and
deleted). -/
theorem step_success_clears_channel (env : Env) (i : Nat) (s : StepSpec) (st : RState)
    (hnil : s.isNil = false)
    (hok : (executeStep env i s st).1 = none) :
    (∀ e ∈ (readMixinOutputsGo s.readDirErr s.channelFiles).2, e.isDir = true) ∧
    ∃ m, (readMixinOutputsGo s.readDirErr s.channelFiles).1 = Except.ok m ∧
      ∀ e ∈ s.channelFiles, e.isDir = false → (e.name, e.contents) ∈ m := by
  have hread : ∃ m, (readMixinOutputsGo s.readDirErr s.channelFiles).1 = Except.ok m := by
    by_cases hres : s.resolveErr = true
    · exact absurd hok (by simp [executeStep, hnil, hres])
    · by_cases hmix : s.mixinErr = true
      · exact absurd hok (by simp [executeStep, hnil, hres, hmix])
      · cases hr : (readMixinOutputsGo s.readDirErr s.channelFiles).1 with
        | error e => exact absurd hok (by simp [executeStep, hnil, hres, hmix, hr])
        | ok m => exact ⟨m, rfl⟩
  obtain ⟨m, hm⟩ := hread
  have hrd : s.readDirErr = false := by
    cases hrd : s.readDirErr
    · rfl
    · rw [readMixinOutputsGo, if_pos (by simp [hrd])] at hm
      exact absurd hm (by simp)
  rw [readMixinOutputsGo, if_neg (by simp [hrd])] at hm ⊢
  obtain ⟨h1, h2⟩ := readMixinOutputsAux_ok s.channelFiles [] m [] hm
  refine ⟨?_, m, hm, ?_⟩
  · intro e he
    rw [h1] at he
    simp only [List.nil_append] at he
    exact (List.mem_filter.1 he).2
  · intro e he hdir
    rw [h2]
    simp only [List.nil_append]
    exact List.mem_map.2 ⟨e, List.mem_filter.2 ⟨he, by simp [hdir]⟩, rfl⟩

/-- C9 witness: a successful concrete step whose mixin wrote files `a`, `b`
and a subdirectory `sub`: afterwards only the subdirectory remains and both
files were read into the outputs map. -/
theorem step_success_clears_channel_witness :
    stepW9.isNil = false ∧ (executeStep baseEnv 0 stepW9 st0).1 = none ∧
    ((∀ e ∈ (readMixinOutputsGo stepW9.readDirErr stepW9.channelFiles).2, e.isDir = true) ∧
      ∃ m, (readMixinOutputsGo stepW9.readDirErr stepW9.channelFiles).1 = Except.ok m ∧
        ∀ e ∈ stepW9.channelFiles, e.isDir = false → (e.name, e.contents) ∈ m) :=
  ⟨rfl, rfl, step_success_clears_channel baseEnv 0 stepW9 st0 rfl rfl⟩

/-- C6: if the Output Channel listing fails, or reading or deleting any
single file in it fails, the whole batch read returns an error (no outputs
map), the step fails, and the runtime state — manifest bookkeeping and
bundle output store alike — is left exactly as it was: no already-read value
is applied, and neither `ApplyStepOutputs` nor the Bundle Output Binder is
invoked. -/
theorem read_failure_discards_outputs (env : Env) (i : Nat) (s : StepSpec) (st : RState)
    (hnil : s.isNil = false) (hres : s.resolveErr = false) (hmix : s.mixinErr = false)
    (hbad : s.readDirErr = true ∨
      ∃ e ∈ s.channelFiles, e.isDir = false ∧ (e.readErr = true ∨ e.removeErr = true)) :
    (∃ msg, (readMixinOutputsGo s.readDirErr s.channelFiles).1 = .error msg) ∧
    (executeStep env i s st).1.isSome = true ∧
    (executeStep env i s st).2.1 = st ∧
    ∀ ev ∈ (executeStep env i s st).2.2,
      ev ≠ Event.applyOutputs i ∧ ev ≠ Event.bindOutputs i := by
  have herr : ∃ msg, (readMixinOutputsGo s.readDirErr s.channelFiles).1 = .error msg := by
    rcases hbad with h | h
    · exact ⟨_, by rw [readMixinOutputsGo, if_pos (by simp [h])]⟩
    · cases hrd : s.readDirErr
      · rw [readMixinOutputsGo, if_neg (by simp [hrd])]
        exact readMixinOutputsAux_err s.channelFiles [] [] h
      · exact ⟨_, by rw [readMixinOutputsGo, if_pos (by simp [hrd])]⟩
  obtain ⟨msg, hmsg⟩ := herr
  refine ⟨⟨msg, hmsg⟩, ?_, ?_, ?_⟩ <;>
    simp [executeStep, hnil, hres, hmix, hmsg]

/-- C6 witness: a concrete step whose mixin wrote a readable file `a` and an
unreadable file `bad`: the batch read errors, the step fails, and the state
is untouched. -/
theorem read_failure_discards_outputs_witness :
    (∃ e ∈ stepW6.channelFiles, e.isDir = false ∧ (e.readErr = true ∨ e.removeErr = true)) ∧
    ((∃ msg, (readMixinOutputsGo stepW6.readDirErr stepW6.channelFiles).1 = .error msg) ∧
      (executeStep baseEnv 0 stepW6 st0).1.isSome = true ∧
      (executeStep baseEnv 0 stepW6 st0).2.1 = st0 ∧
      ∀ ev ∈ (executeStep baseEnv 0 stepW6 st0).2.2,
        ev ≠ Event.applyOutputs 0 ∧ ev ≠ Event.bindOutputs 0) := by
  have hbad : ∃ e ∈ stepW6.channelFiles, e.isDir = false ∧ (e.readErr = true ∨ e.removeErr = true) := by
    decide
  exact ⟨hbad, read_failure_discards_outputs baseEnv 0 stepW6 st0 rfl rfl rfl (Or.inr hbad)⟩

/-- A definition found under key `k` is named `k`. -/
theorem lookupDef_name {defs : List OutputDefinition} {k : String}
    {d : OutputDefinition} (h : lookupDef defs k = some d) : d.Name = k := by
  have := List.find?_some h
  simpa using this

/-- The `applyTo` scope test holds exactly when the list is empty or contains
the current action. -/
theorem shouldApplyOutput_iff (action : String) (d : OutputDefinition) :
    shouldApplyOutput action d = true ↔ (d.ApplyTo = [] ∨ action ∈ d.ApplyTo) := by
  unfold shouldApplyOutput
  by_cases h : d.ApplyTo.isEmpty = true
  · simp [h, List.isEmpty_iff.1 h]
  · rw [if_neg h]
    simp only [List.any_eq_true, beq_iff_eq]
    constructor
    · rintro ⟨a, ha, rfl⟩
      exact Or.inr ha
    · rintro (he | ha)
      · rw [he] at h; exact absurd rfl h
      · exact ⟨action, ha, rfl⟩

/-- With no write failures, the binder loop succeeds. -/
theorem bindLoop_ok (env : Env) (hw : ∀ p, env.writeErr p = false) :
    ∀ (outputs : List (String × String)) (store : Store)
      (acc : List (String × String)),
      (bindLoop env outputs store acc).res = .ok () := by
  intro outputs
  induction outputs with
  | nil => intro store acc; rfl
  | cons kv rest ih =>
    intro store acc
    rcases kv with ⟨k, v⟩
    unfold bindLoop
    cases hd : lookupDef env.defs k with
    | none => exact ih store acc
    | some d =>
      dsimp only
      by_cases hs : shouldApplyOutput env.action d = true
      · rw [if_pos hs, hw d.Name]
        simp only [Bool.false_eq_true, if_false]
        exact ih _ _
      · rw [if_neg hs]
        exact ih store acc

/-- With no write failures, a pair is among the files written by the binder
loop exactly when it was carried in already, or some produced pair matches a
declared, in-scope definition and the written file is that definition's name
with the produced value. -/
theorem bindLoop_mem_writes (env : Env) (hw : ∀ p, env.writeErr p = false) :
    ∀ (outputs : List (String × String)) (store : Store)
      (acc : List (String × String)) (x : String × String),
      x ∈ (bindLoop env outputs store acc).writes ↔
        x ∈ acc ∨ ∃ kv ∈ outputs, ∃ d, lookupDef env.defs kv.1 = some d ∧
          shouldApplyOutput env.action d = true ∧ x = (d.Name, kv.2) := by
  intro outputs
  induction outputs with
  | nil =>
    intro store acc x
    simp [bindLoop]
  | cons kv rest ih =>
    intro store acc x
    rcases kv with ⟨k, v⟩
    unfold bindLoop
    cases hd : lookupDef env.defs k with
    | none =>
      rw [ih]
      constructor
      · rintro (hx | ⟨kv, hkv, d, hd2, hs, hx⟩)
        · exact Or.inl hx
        · exact Or.inr ⟨kv, List.mem_cons_of_mem _ hkv, d, hd2, hs, hx⟩
      · rintro (hx | ⟨kv, hkv, d, hd2, hs, hx⟩)
        · exact Or.inl hx
        · rcases List.mem_cons.1 hkv with rfl | hkv2
          · rw [hd2] at hd; exact absurd hd (by simp)
          · exact Or.inr ⟨kv, hkv2, d, hd2, hs, hx⟩
    | some d =>
      dsimp only
      by_cases hs : shouldApplyOutput env.action d = true
      · rw [if_pos hs, hw d.Name]
        simp only [Bool.false_eq_true, if_false]
        rw [ih]
        constructor
        · rintro (hx | ⟨kv, hkv, d2, hd2, hs2, hx⟩)
          · rcases List.mem_append.1 hx with hx | hx
            · exact Or.inl hx
            · refine Or.inr ⟨(k, v), List.mem_cons_self _ _, d, hd, hs, ?_⟩
              simpa using hx
          · exact Or.inr ⟨kv, List.mem_cons_of_mem _ hkv, d2, hd2, hs2, hx⟩
        · rintro (hx | ⟨kv, hkv, d2, hd2, hs2, hx⟩)
          · exact Or.inl (List.mem_append.2 (Or.inl hx))
          · rcases List.mem_cons.1 hkv with rfl | hkv2
            · rw [hd2] at hd
              obtain rfl : d2 = d := by injection hd
              exact Or.inl (List.mem_append.2 (Or.inr (by simp [hx])))
            · exact Or.inr ⟨kv, hkv2, d2, hd2, hs2, hx⟩
      · rw [if_neg hs]
        rw [ih]
        constructor
        · rintro (hx | ⟨kv, hkv, d2, hd2, hs2, hx⟩)
          · exact Or.inl hx
          · exact Or.inr ⟨kv, List.mem_cons_of_mem _ hkv, d2, hd2, hs2, hx⟩
        · rintro (hx | ⟨kv, hkv, d2, hd2, hs2, hx⟩)
          · exact Or.inl hx
          · rcases List.mem_cons.1 hkv with rfl | hkv2
            · rw [hd2] at hd
              obtain rfl : d2 = d := by injection hd
              exact absurd hs2 hs
            · exact Or.inr ⟨kv, hkv2, d2, hd2, hs2, hx⟩

/-- C4: with the store directory available and no write failures, a produced
(name, value) pair that matches a declared output definition is written to
the Bundle Output Store under that name exactly when the definition's
`applyTo` list is empty or contains the current action. -/
theorem stepOutput_written_iff_in_scope (env : Env) (outputs : List (String × String))
    (store : Store) (k v : String) (d : OutputDefinition)
    (hmk : env.mkdirOutputsErr = false)
    (hw : ∀ p, env.writeErr p = false)
    (hmem : (k, v) ∈ outputs)
    (hd : lookupDef env.defs k = some d) :
    (k, v) ∈ (applyStepOutputsToBundle env outputs store).writes ↔
      (d.ApplyTo = [] ∨ env.action ∈ d.ApplyTo) := by
  have hname := lookupDef_name hd
  unfold applyStepOutputsToBundle
  rw [if_neg (by simp [hmk])]
  rw [bindLoop_mem_writes env hw]
  simp only [List.not_mem_nil, false_or]
  constructor
  · rintro ⟨⟨k2, v2⟩, hkv, d2, hd2, hs2, hx⟩
    have hn2 : d2.Name = k2 := lookupDef_name hd2
    obtain ⟨hk2, hv2⟩ : k = d2.Name ∧ v = v2 := by
      constructor <;> simp_all
    rw [hn2] at hk2
    subst hk2
    rw [hd2] at hd
    obtain rfl : d2 = d := by injection hd
    exact (shouldApplyOutput_iff env.action _).1 hs2
  · intro hscope
    exact ⟨(k, v), hmem, d, hd,
      (shouldApplyOutput_iff env.action d).2 hscope, by rw [hname]⟩

/-- C4 witness: an output `o` declared with `applyTo=["install"]` and
produced with value `x` is written when the action is `install` and not
written when the action is `upgrade`. -/
theorem stepOutput_written_iff_in_scope_witness :
    ("o", "x") ∈ (applyStepOutputsToBundle envW4 [("o", "x")] []).writes ∧
    ("o", "x") ∉ (applyStepOutputsToBundle envW4up [("o", "x")] []).writes := by
  constructor
  · exact (stepOutput_written_iff_in_scope envW4 [("o", "x")] [] "o" "x"
      ⟨"o", "", ["install"], false⟩ rfl (fun _ => rfl) (by simp) rfl).2
      (Or.inr (by decide))
  · intro hmem
    rcases (stepOutput_written_iff_in_scope envW4up [("o", "x")] [] "o" "x"
        ⟨"o", "", ["install"], false⟩ rfl (fun _ => rfl) (by simp) rfl).1 hmem with
      h | h
    · exact absurd h (by simp)
    · exact absurd h (by decide)

/-- C8: with the store directory available and no write failures, a produced
(name, value) pair whose name matches no declared output definition is
skipped silently: the binder succeeds and writes no file under that name. -/
theorem unmatched_output_silently_skipped (env : Env) (outputs : List (String × String))
    (store : Store) (k v : String)
    (hmk : env.mkdirOutputsErr = false)
    (hw : ∀ p, env.writeErr p = false)
    (hmem : (k, v) ∈ outputs)
    (hnone : lookupDef env.defs k = none) :
    (applyStepOutputsToBundle env outputs store).res = .ok () ∧
    ∀ w ∈ (applyStepOutputsToBundle env outputs store).writes, w.1 ≠ k := by
  unfold applyStepOutputsToBundle
  rw [if_neg (by simp [hmk])]
  refine ⟨bindLoop_ok env hw outputs store [], ?_⟩
  intro w hwmem
  rw [bindLoop_mem_writes env hw] at hwmem
  rcases hwmem with hx | ⟨⟨k2, v2⟩, hkv, d2, hd2, hs2, hx⟩
  · exact absurd hx (List.not_mem_nil w)
  · intro hk
    have hn2 : d2.Name = k2 := lookupDef_name hd2
    rw [hx] at hk
    simp only at hk
    rw [hn2] at hk
    subst hk
    rw [hd2] at hnone
    exact absurd hnone (by simp)

/-- C8 witness: with no declared outputs at all, a produced pair `(k, v)` is
dropped without error and nothing is written under `k`. -/
theorem unmatched_output_silently_skipped_witness :
    (applyStepOutputsToBundle baseEnv [("k", "v")] []).res = .ok () ∧
    ∀ w ∈ (applyStepOutputsToBundle baseEnv [("k", "v")] []).writes, w.1 ≠ "k" :=
  unmatched_output_silently_skipped baseEnv [("k", "v")] [] "k" "v"
    rfl (fun _ => rfl) (by simp) rfl

/-- The resolver loop body never changes the `bigErr` aggregate (this is the
C1 slip at line 201, stated once and reused below). -/
theorem unboundStep_bigErr (env : Env) (produced : List (String × String))
    (acc : UAcc) (d : OutputDefinition) :
    (unboundStep env produced acc d).bigErr = acc.bigErr := by
  unfold unboundStep
  split_ifs <;> rfl

/-- The copies trace of one resolver-loop iteration: extended by the
definition's copy exactly when `unboundCopyCond` holds. -/
theorem unboundStep_copies (env : Env) (produced : List (String × String))
    (acc : UAcc) (d : OutputDefinition) :
    (unboundStep env produced acc d).copies =
      if unboundCopyCond env produced d then
        acc.copies ++ [(d.Name, env.copyContents d.Path)]
      else acc.copies := by
  unfold unboundStep unboundCopyCond
  split_ifs <;> simp_all

/-- The store after one resolver-loop iteration: written at the definition's
name exactly when `unboundCopyCond` holds. -/
theorem unboundStep_store (env : Env) (produced : List (String × String))
    (acc : UAcc) (d : OutputDefinition) :
    (unboundStep env produced acc d).store =
      if unboundCopyCond env produced d then
        storeWrite acc.store d.Name (env.copyContents d.Path)
      else acc.store := by
  unfold unboundStep unboundCopyCond
  split_ifs <;> simp_all

/-- Looking up `n` after writing `(k, v)` into the store yields `v` when
`n = k` and the old binding otherwise. -/
theorem lookup_storeWrite (store : Store) (k v n : String) :
    List.lookup n (storeWrite store k v) =
      if n = k then some v else List.lookup n store := by
  induction store with
  | nil =>
    by_cases h : n = k
    · simp [storeWrite, List.lookup, h]
    · have hb : (n == k) = false := beq_eq_false_iff_ne.2 h
      simp [storeWrite, List.lookup, hb, h]
  | cons kv rest ih =>
    rcases kv with ⟨k2, v2⟩
    by_cases h2 : k2 = k
    · rw [storeWrite, if_pos h2]
      by_cases h : n = k
      · simp [List.lookup, h, h2]
      · have hb : (n == k) = false := beq_eq_false_iff_ne.2 h
        have hb2 : (n == k2) = false := beq_eq_false_iff_ne.2 (by rw [h2]; exact h)
        simp [List.lookup, hb, hb2, h]
    · rw [storeWrite, if_neg h2]
      by_cases h : n = k2
      · have hnk : ¬n = k := fun hc => h2 (by rw [← h]; exact hc)
        have hb2 : (n == k2) = true := beq_iff_eq.2 h
        simp [List.lookup, hb2, hnk]
      · have hb2 : (n == k2) = false := beq_eq_false_iff_ne.2 h
        simp [List.lookup, hb2, ih]

/-- A pair is in the copies trace of the resolver loop exactly when it was
carried in already, or some processed definition satisfies the copy
condition and the pair is its (name, contents) copy. -/
theorem unboundLoop_mem_copies (env : Env) (produced : List (String × String)) :
    ∀ (ds : List OutputDefinition) (acc : UAcc) (c : String × String),
      c ∈ (unboundLoop env produced ds acc).copies ↔
        c ∈ acc.copies ∨ ∃ d ∈ ds, unboundCopyCond env produced d ∧
          c = (d.Name, env.copyContents d.Path) := by
  intro ds
  induction ds with
  | nil => intro acc c; simp [unboundLoop, List.foldl_nil]
  | cons d rest ih =>
    intro acc c
    have hstep : unboundLoop env produced (d :: rest) acc =
        unboundLoop env produced rest (unboundStep env produced acc d) := rfl
    rw [hstep, ih]
    rw [unboundStep_copies]
    by_cases hc : unboundCopyCond env produced d
    · rw [if_pos hc]
      constructor
      · rintro (hx | ⟨d2, hd2, hcond, hx⟩)
        · rcases List.mem_append.1 hx with hx | hx
          · exact Or.inl hx
          · exact Or.inr ⟨d, List.mem_cons_self _ _, hc, by simpa using hx⟩
        · exact Or.inr ⟨d2, List.mem_cons_of_mem _ hd2, hcond, hx⟩
      · rintro (hx | ⟨d2, hd2, hcond, hx⟩)
        · exact Or.inl (List.mem_append.2 (Or.inl hx))
        · rcases List.mem_cons.1 hd2 with rfl | hd3
          · exact Or.inl (List.mem_append.2 (Or.inr (by simp [hx])))
          · exact Or.inr ⟨d2, hd3, hcond, hx⟩
    · rw [if_neg hc]
      constructor
      · rintro (hx | ⟨d2, hd2, hcond, hx⟩)
        · exact Or.inl hx
        · exact Or.inr ⟨d2, List.mem_cons_of_mem _ hd2, hcond, hx⟩
      · rintro (hx | ⟨d2, hd2, hcond, hx⟩)
        · exact Or.inl hx
        · rcases List.mem_cons.1 hd2 with rfl | hd3
          · exact absurd hcond hc
          · exact Or.inr ⟨d2, hd3, hcond, hx⟩

/-- The resolver loop leaves the store binding of any name untouched when no
processed definition of that name satisfies the copy condition. -/
theorem unboundLoop_store_stable (env : Env) (produced : List (String × String))
    (n : String) :
    ∀ (ds : List OutputDefinition) (acc : UAcc),
      (∀ d ∈ ds, d.Name = n → ¬unboundCopyCond env produced d) →
      List.lookup n (unboundLoop env produced ds acc).store =
        List.lookup n acc.store := by
  intro ds
  induction ds with
  | nil => intro acc _; rfl
  | cons d rest ih =>
    intro acc hnone
    have hstep : unboundLoop env produced (d :: rest) acc =
        unboundLoop env produced rest (unboundStep env produced acc d) := rfl
    rw [hstep]
    rw [ih _ (fun d2 hd2 => hnone d2 (List.mem_cons_of_mem _ hd2))]
    rw [unboundStep_store]
    by_cases hc : unboundCopyCond env produced d
    · rw [if_pos hc, lookup_storeWrite]
      have hne : ¬n = d.Name := fun h =>
        hnone d (List.mem_cons_self _ _) h.symm hc
      rw [if_neg hne]
    · rw [if_neg hc]

/-- C5 counterexample: the declared output `o` (path `/f`, whose file reads
as `X`) was produced by a step — with the empty value — and the store already
holds that produced (empty) value; the claim says the copy is skipped and
the stored value not overwritten, yet the resolver performs the copy and
overwrites the store entry with `X`, because the "already set" test at
runtime.go line 188 reads `outputs[name] != ""` and treats the produced
empty value as absent. -/
theorem unbound_overwrites_empty_produced :
    (applyUnboundBundleOutputs envC5 [("o", "")] [("o", "")]).copies = [("o", "X")] ∧
    List.lookup "o" (applyUnboundBundleOutputs envC5 [("o", "")] [("o", "")]).store =
      some "X" :=
  ⟨rfl, rfl⟩

/-- C5 (amended): with the store directory available and declared output
names unique, a declared definition whose bookkeeping value is non-empty —
i.e. a step produced it with a non-empty value — or which has no path, is
skipped by the resolver: nothing is copied under its name and its store
binding is untouched; and a declared definition with a path, an empty (or
absent) bookkeeping value, in `applyTo` scope and with a succeeding copy,
ends with the contents of its backing file copied into the store under its
name. -/
theorem unbound_resolver_copy_semantics (env : Env) (produced : List (String × String))
    (store : Store) (d : OutputDefinition)
    (hmk : env.mkdirOutputsErr = false)
    (hnd : (env.defs.map OutputDefinition.Name).Nodup)
    (hd : d ∈ env.defs) :
    (((List.lookup d.Name produced).getD "" ≠ "" ∨ d.Path = "") →
      List.lookup d.Name (applyUnboundBundleOutputs env produced store).store =
        List.lookup d.Name store ∧
      ∀ c ∈ (applyUnboundBundleOutputs env produced store).copies, c.1 ≠ d.Name) ∧
    ((List.lookup d.Name produced).getD "" = "" → d.Path ≠ "" →
      shouldApplyOutput env.action d = true → env.copyErr d.Path = false →
      List.lookup d.Name (applyUnboundBundleOutputs env produced store).store =
        some (env.copyContents d.Path) ∧
      (d.Name, env.copyContents d.Path) ∈
        (applyUnboundBundleOutputs env produced store).copies) := by
  have hunf : applyUnboundBundleOutputs env produced store =
      ⟨errorOrNil (unboundLoop env produced env.defs ⟨[], store, [], []⟩).bigErr,
        (unboundLoop env produced env.defs ⟨[], store, [], []⟩).store,
        (unboundLoop env produced env.defs ⟨[], store, [], []⟩).copies,
        (unboundLoop env produced env.defs ⟨[], store, [], []⟩).failed⟩ := by
    unfold applyUnboundBundleOutputs
    rw [if_neg (by simp [hmk])]
  have hinj : ∀ d2 ∈ env.defs, d2.Name = d.Name → d2 = d :=
    fun d2 h2 he => List.inj_on_of_nodup_map hnd h2 hd he
  constructor
  · intro hskip
    have hnc : ∀ d2 ∈ env.defs, d2.Name = d.Name → ¬unboundCopyCond env produced d2 := by
      intro d2 h2 he hc
      obtain rfl : d2 = d := hinj d2 h2 he
      rcases hc with ⟨hc1, hc2, -, -⟩
      rcases hskip with hs | hs
      · exact hs hc1
      · exact hc2 hs
    constructor
    · rw [hunf]
      exact unboundLoop_store_stable env produced d.Name env.defs ⟨[], store, [], []⟩ hnc
    · intro c hcmem hc1
      rw [hunf] at hcmem
      dsimp only at hcmem
      rw [unboundLoop_mem_copies] at hcmem
      rcases hcmem with hx | ⟨d2, hd2, hcond, hx⟩
      · exact absurd hx (List.not_mem_nil c)
      · refine hnc d2 hd2 ?_ hcond
        rw [hx] at hc1
        exact hc1
  · intro h1 h2 h3 h4
    have hcond : unboundCopyCond env produced d := ⟨h1, h2, h3, h4⟩
    obtain ⟨l1, l2, hsplit⟩ := List.append_of_mem hd
    have hnotin : d.Name ∉ l2.map OutputDefinition.Name := by
      have hnd2 : ((l1 ++ d :: l2).map OutputDefinition.Name).Nodup := by
        rw [← hsplit]; exact hnd
      rw [List.map_append, List.map_cons] at hnd2
      exact (List.nodup_cons.1 (List.Nodup.of_append_right hnd2)).1
    have hl2 : ∀ d2 ∈ l2, d2.Name = d.Name → ¬unboundCopyCond env produced d2 := by
      intro d2 hd2 he _
      exact hnotin (he ▸ List.mem_map_of_mem OutputDefinition.Name hd2)
    constructor
    · rw [hunf]
      dsimp only
      rw [hsplit]
      have hfold : unboundLoop env produced (l1 ++ d :: l2) ⟨[], store, [], []⟩ =
          unboundLoop env produced l2
            (unboundStep env produced (unboundLoop env produced l1 ⟨[], store, [], []⟩) d) := by
        unfold unboundLoop
        rw [List.foldl_append]
        rfl
      rw [hfold, unboundLoop_store_stable env produced d.Name l2 _ hl2,
        unboundStep_store, if_pos hcond, lookup_storeWrite, if_pos rfl]
    · rw [hunf]
      dsimp only
      rw [unboundLoop_mem_copies]
      exact Or.inr ⟨d, hd, hcond, rfl⟩

/-- C5 witness: the declared output `o` with path `/f` (file contents
`X`), not produced by any step, is copied into the empty store by the
resolver. -/
theorem unbound_resolver_copy_semantics_witness :
    List.lookup "o" (applyUnboundBundleOutputs envC5 [] []).store = some "X" ∧
    ("o", "X") ∈ (applyUnboundBundleOutputs envC5 [] []).copies := by
  have h := unbound_resolver_copy_semantics envC5 [] [] defO rfl (by decide)
    (List.mem_singleton.2 rfl)
  exact h.2 rfl (by decide) rfl rfl

/-- The binder loop's error outcome does not depend on the store contents or
the accumulated writes trace. -/
theorem bindLoop_res_indep (env : Env) :
    ∀ (outputs : List (String × String)) (s1 s2 : Store)
      (w1 w2 : List (String × String)),
      (bindLoop env outputs s1 w1).res = (bindLoop env outputs s2 w2).res := by
  intro outputs
  induction outputs with
  | nil => intros; rfl
  | cons kv rest ih =>
    intro s1 s2 w1 w2
    rcases kv with ⟨k, v⟩
    unfold bindLoop
    cases hd : lookupDef env.defs k with
    | none => exact ih s1 s2 w1 w2
    | some d =>
      by_cases hs : shouldApplyOutput env.action d = true
      · by_cases hw : env.writeErr d.Name = true
        · simp only [if_pos hs, if_pos hw]
        · simp only [if_pos hs, if_neg hw]
          exact ih _ _ _ _
      · simp only [if_neg hs]
        exact ih s1 s2 w1 w2

/-- The binder's error outcome does not depend on the store contents. -/
theorem applyStepOutputs_res_indep (env : Env) (outputs : List (String × String))
    (s1 s2 : Store) :
    (applyStepOutputsToBundle env outputs s1).res =
      (applyStepOutputsToBundle env outputs s2).res := by
  unfold applyStepOutputsToBundle
  by_cases hm : env.mkdirOutputsErr = true
  · simp only [if_pos hm]
  · simp only [if_neg hm]
    exact bindLoop_res_indep env outputs s1 s2 [] []

/-- The error outcome of one step depends only on the environment and the
step's oracles, not on the step index or the threaded state. -/
theorem executeStep_fst (env : Env) (i : Nat) (s : StepSpec) (st : RState) :
    (executeStep env i s st).1 = stepErr env s := by
  unfold stepErr executeStep
  by_cases hnil : s.isNil = true
  · simp only [if_pos hnil]
  · simp only [if_neg hnil]
    by_cases hres : s.resolveErr = true
    · simp only [if_pos hres]
    · simp only [if_neg hres]
      by_cases hmix : s.mixinErr = true
      · simp only [if_pos hmix]
      · simp only [if_neg hmix]
        cases hr : (readMixinOutputsGo s.readDirErr s.channelFiles).1 with
        | error e => rfl
        | ok outputs =>
          by_cases ha : s.applyErr = true
          · simp only [if_pos ha]
          · simp only [if_neg ha]
            rw [applyStepOutputs_res_indep env outputs st.store ([] : Store)]

/-- Every event emitted by one step execution carries that step's index. -/
theorem executeStep_events_idx (env : Env) (i : Nat) (s : StepSpec) (st : RState) :
    ∀ ev ∈ (executeStep env i s st).2.2, ev.idx = some i := by
  unfold executeStep
  by_cases hnil : s.isNil = true
  · simp [if_pos hnil]
  · simp only [if_neg hnil]
    by_cases hres : s.resolveErr = true
    · simp [if_pos hres, Event.idx]
    · simp only [if_neg hres]
      by_cases hmix : s.mixinErr = true
      · simp [if_pos hmix, Event.idx]
      · simp only [if_neg hmix]
        cases hr : (readMixinOutputsGo s.readDirErr s.channelFiles).1 with
        | error e => simp [Event.idx]
        | ok outputs =>
          by_cases ha : s.applyErr = true
          · simp [if_pos ha, Event.idx]
          · simp [if_neg ha, Event.idx]

/-- The step loop returns the first step-execution error. -/
theorem runSteps_fst (env : Env) :
    ∀ (steps : List StepSpec) (i : Nat) (st : RState),
      (runSteps env i steps st).1 = firstStepErr env steps := by
  intro steps
  induction steps with
  | nil => intros; rfl
  | cons s rest ih =>
    intro i st
    unfold runSteps firstStepErr
    rcases hstep : executeStep env i s st with ⟨r, st2, ev⟩
    have hr : r = stepErr env s := by
      have h2 := executeStep_fst env i s st
      rw [hstep] at h2
      exact h2
    cases hse : stepErr env s with
    | some e =>
      rw [hse] at hr; subst hr
      rfl
    | none =>
      rw [hse] at hr; subst hr
      dsimp only
      exact ih (i + 1) st2

/-- Every event emitted by the step loop belongs to some step (none is the
resolver event). -/
theorem runSteps_events_some (env : Env) :
    ∀ (steps : List StepSpec) (i : Nat) (st : RState),
      ∀ ev ∈ (runSteps env i steps st).2.2, ∃ j, ev.idx = some j := by
  intro steps
  induction steps with
  | nil =>
    intro i st ev hev
    exact absurd hev (List.not_mem_nil ev)
  | cons s rest ih =>
    intro i st ev hev
    rw [runSteps] at hev
    rcases hstep : executeStep env i s st with ⟨r, st2, ev2⟩
    rw [hstep] at hev
    cases r with
    | some e =>
      exact ⟨i, executeStep_events_idx env i s st ev (by rw [hstep]; exact hev)⟩
    | none =>
      dsimp only at hev
      rcases List.mem_append.1 hev with hev2 | hev2
      · exact ⟨i, executeStep_events_idx env i s st ev (by rw [hstep]; exact hev2)⟩
      · exact ih (i + 1) st2 ev hev2

/-- When the steps before `k` succeed and step `k` fails, the step loop
started at base index `i` emits no event with index beyond `i + k`. -/
theorem runSteps_events_le (env : Env) :
    ∀ (steps : List StepSpec) (i k : Nat) (st : RState) (hk : k < steps.length),
      (∀ (j : Nat) (hj : j < k), stepErr env (steps.get ⟨j, Nat.lt_trans hj hk⟩) = none) →
      stepErr env (steps.get ⟨k, hk⟩) ≠ none →
      ∀ ev ∈ (runSteps env i steps st).2.2, ∀ j, ev.idx = some j → j ≤ i + k := by
  intro steps
  induction steps with
  | nil =>
    intro i k st hk
    exact absurd hk (by simp)
  | cons s rest ih =>
    intro i k st hk hprev hfail ev hev j hidx
    rcases hstep : executeStep env i s st with ⟨r, st2, ev2⟩
    have hr : r = stepErr env s := by
      have h2 := executeStep_fst env i s st
      rw [hstep] at h2
      exact h2
    rw [runSteps, hstep] at hev
    cases k with
    | zero =>
      have hse : stepErr env s ≠ none := hfail
      cases r with
      | none => exact absurd hr.symm hse
      | some e =>
        dsimp only at hev
        have hi := executeStep_events_idx env i s st ev (by rw [hstep]; exact hev)
        rw [hi] at hidx
        obtain rfl : j = i := by injection hidx.symm
        omega
    | succ k2 =>
      have hs0 : stepErr env s = none := hprev 0 (Nat.succ_pos k2)
      rw [hs0] at hr; subst hr
      dsimp only at hev
      rcases List.mem_append.1 hev with hev2 | hev2
      · have hi := executeStep_events_idx env i s st ev (by rw [hstep]; exact hev2)
        rw [hi] at hidx
        obtain rfl : j = i := by injection hidx.symm
        omega
      · have hk2 : k2 < rest.length := Nat.lt_of_succ_lt_succ hk
        have hle := ih (i + 1) k2 st2 hk2
          (fun j2 hj2 => hprev (j2 + 1) (Nat.succ_lt_succ hj2))
          hfail ev hev2 j hidx
        omega

/-- Under successful pre-step stages, `Execute` is the step loop followed by
exactly one resolver pass, with the resolver's store and error-log effects
applied and the loop's outcome returned. -/
theorem Execute_preOk_eq (env : Env) (steps : List StepSpec) (st : RState)
    (h : preOk env) :
    Execute env steps st =
      ⟨(runSteps env 0 steps st).1,
        ⟨(applyUnboundBundleOutputs env (runSteps env 0 steps st).2.1.manifestOutputs
            (runSteps env 0 steps st).2.1.store).store,
          (runSteps env 0 steps st).2.1.manifestOutputs,
          match (applyUnboundBundleOutputs env (runSteps env 0 steps st).2.1.manifestOutputs
              (runSteps env 0 steps st).2.1.store).err with
          | some es => (runSteps env 0 steps st).2.1.errLog ++ [renderMulti es]
          | none => (runSteps env 0 steps st).2.1.errLog⟩,
        (runSteps env 0 steps st).2.2 ++ [Event.resolveUnbound]⟩ := by
  obtain ⟨h1, h2, h3, h4, h5⟩ := h
  obtain ⟨v, hv⟩ : ∃ v, getImageMappingFiles env.imageEnv = .ok v := by
    cases hge : getImageMappingFiles env.imageEnv with
    | ok v => exact ⟨v, rfl⟩
    | error e => rw [hge] at h3; exact absurd h3 (by simp [exceptIsOk])
  unfold Execute
  rw [hv]
  simp only [h1, h2, h4, h5, Bool.false_eq_true, if_false]

/-- C2: under successful pre-step stages, the Unbound Output Resolver runs
exactly once, after every step event, whether the loop succeeded or failed;
and when the steps before `k` succeed and step `k` fails, no event of any
step beyond `k` — no resolution, mixin invocation or output read — ever
occurs. -/
theorem execute_first_failure_truncates (env : Env) (steps : List StepSpec)
    (st : RState) (h : preOk env) :
    (∃ pre, (Execute env steps st).trace = pre ++ [Event.resolveUnbound] ∧
      Event.resolveUnbound ∉ pre) ∧
    ∀ (k : Nat) (hk : k < steps.length),
      (∀ (j : Nat) (hj : j < k), stepErr env (steps.get ⟨j, Nat.lt_trans hj hk⟩) = none) →
      stepErr env (steps.get ⟨k, hk⟩) ≠ none →
      ∀ ev ∈ (Execute env steps st).trace, ∀ j, ev.idx = some j → j ≤ k := by
  have htr : (Execute env steps st).trace =
      (runSteps env 0 steps st).2.2 ++ [Event.resolveUnbound] := by
    rw [Execute_preOk_eq env steps st h]
  constructor
  · refine ⟨(runSteps env 0 steps st).2.2, htr, ?_⟩
    intro hmem
    obtain ⟨j, hj⟩ := runSteps_events_some env steps 0 st _ hmem
    exact absurd hj (by simp [Event.idx])
  · intro k hk hprev hfail ev hev j hidx
    rw [htr] at hev
    rcases List.mem_append.1 hev with hev2 | hev2
    · have := runSteps_events_le env steps 0 k st hk hprev hfail ev hev2 j hidx
      omega
    · obtain rfl : ev = Event.resolveUnbound := List.mem_singleton.1 hev2
      exact absurd hidx (by simp [Event.idx])

/-- C2 witness: three concrete steps of which the second fails: every traced
event belongs to step 0 or 1, and the resolver event occurs exactly once, at
the end. -/
theorem execute_first_failure_truncates_witness :
    preOk baseEnv ∧
    (∃ pre, (Execute baseEnv [okStep, badStep, okStep] st0).trace =
        pre ++ [Event.resolveUnbound] ∧ Event.resolveUnbound ∉ pre) ∧
    ∀ ev ∈ (Execute baseEnv [okStep, badStep, okStep] st0).trace,
      ∀ j, ev.idx = some j → j ≤ 1 := by
  have h := execute_first_failure_truncates baseEnv [okStep, badStep, okStep] st0
    (by decide)
  exact ⟨by decide, h.1, h.2 1 (by decide) (by decide) (by decide)⟩

/-- C3: under successful pre-step stages, `Execute` returns exactly the first
step-execution error (or nil when all steps succeeded), whatever the
resolver did; a non-nil resolver error is only appended to the error
stream. -/
theorem execute_outcome_ignores_resolver_error (env : Env) (steps : List StepSpec)
    (st : RState) (h : preOk env) :
    (Execute env steps st).result = firstStepErr env steps ∧
    ∀ es, (applyUnboundBundleOutputs env (runSteps env 0 steps st).2.1.manifestOutputs
        (runSteps env 0 steps st).2.1.store).err = some es →
      renderMulti es ∈ (Execute env steps st).state.errLog := by
  rw [Execute_preOk_eq env steps st h]
  constructor
  · exact runSteps_fst env steps 0 st
  · intro es hes
    dsimp only
    rw [hes]
    exact List.mem_append.2 (Or.inr (List.mem_singleton.2 rfl))

/-- C3 witness: a concrete run whose only step fails to resolve and whose
resolver also fails (store directory cannot be created): the returned error
is the step error, and the resolver error only lands in the error stream. -/
theorem execute_outcome_ignores_resolver_error_witness :
    preOk envW3 ∧
    (Execute envW3 [badStep] st0).result = firstStepErr envW3 [badStep] ∧
    renderMulti ["unable to ensure CNAB outputs directory exists"] ∈
      (Execute envW3 [badStep] st0).state.errLog := by
  have h := execute_outcome_ignores_resolver_error envW3 [badStep] st0 (by decide)
  exact ⟨by decide, h.1, h.2 ["unable to ensure CNAB outputs directory exists"] rfl⟩

/-- C10: the step executor discards the envelope serialization error — a
step behaves identically whether or not `yaml.Marshal` failed — and, once
the step resolves, the mixin is always invoked with whatever (possibly
empty) serialized input was produced. -/
theorem marshal_error_never_fails_step (env : Env) (i : Nat) (s : StepSpec)
    (st : RState) :
    executeStep env i { s with marshalErr := true } st =
      executeStep env i { s with marshalErr := false } st ∧
    (s.isNil = false → s.resolveErr = false →
      Event.mixinRun i s.marshalOut ∈ (executeStep env i s st).2.2) := by
  constructor
  · rfl
  · intro hnil hres
    unfold executeStep
    simp only [hnil, hres, Bool.false_eq_true, if_false]
    by_cases hmix : s.mixinErr = true
    · simp [if_pos hmix, yamlMarshal]
    · simp only [if_neg hmix]
      cases hr : (readMixinOutputsGo s.readDirErr s.channelFiles).1 with
      | error e => simp [yamlMarshal]
      | ok outputs =>
        by_cases ha : s.applyErr = true
        · simp [if_pos ha, yamlMarshal]
        · simp [if_neg ha, yamlMarshal]

/-- C10 witness: a concrete step whose envelope serialization fails with
empty output bytes: the run is identical to the non-failing one and the
mixin is still invoked with the empty input. -/
theorem marshal_error_never_fails_step_witness :
    executeStep baseEnv 0 { stepW10 with marshalErr := true } st0 =
      executeStep baseEnv 0 { stepW10 with marshalErr := false } st0 ∧
    Event.mixinRun 0 "" ∈ (executeStep baseEnv 0 stepW10 st0).2.2 := by
  have h := marshal_error_never_fails_step baseEnv 0 stepW10 st0
  exact ⟨h.1, h.2 rfl rfl⟩

end Porter
